import Mathlib

/-!
Shallow embedding of `src/orderbook.py` and `src/constants.py` from the
black-scholes-visualiser repository (a single-instrument limit order book).

Modelling decisions, each justified by the source:
* Python `int` is `Int`.
* `uuid4` identifiers are modelled by a fresh-counter `next_id : Nat` carried in
  the `Orderbook` state: each `Order` / `Deal` construction takes the current
  counter and bumps it.  The source only needs identifiers to be unique and
  stable (`constants.py`, `_uuid4_str`).
* Timestamps are omitted: no claim and no source logic reads them.
* `SortedDict(lambda x: -x)` (the `bids` store) is an association list of
  `(price, queue)` levels kept sorted strictly descending by price, so that the
  head of the list is `next(iter(...))`, i.e. the maximum key; the plain
  `SortedDict` (the `asks` store) is kept sorted strictly ascending, so its
  head is the minimum key.  A `deque` of orders is a `List Order` whose head is
  the queue front; `append` adds at the tail.
* `_DEBUG_disable_cache` is `True` in `__init__`, hence `create_new_order` /
  `create_new_deal` never append to `self._orders` / `self._deals`; those two
  log lists are therefore omitted from the state.
* The unbounded `while True:` loop of `submit_market_order` is modelled with
  explicit fuel; `none` means the Python either loops forever or raises
  (`next(iter(...))` on an empty store raises `StopIteration`).
-/

/-- `Order` from `constants.py` (timestamp omitted, uuid replaced by `Nat`). -/
structure Order where
  owner_id : String
  is_buy : Bool
  price : Int
  volume : Int
  comment : String
  order_id : Nat
deriving Repr, DecidableEq

/-- `Deal` from `constants.py` (timestamp omitted, uuid replaced by `Nat`). -/
structure Deal where
  volume : Int
  price : Int
  order_id_client : Nat
  order_id_market : Nat
  comment : String
  deal_id : Nat
deriving Repr, DecidableEq

/-- One price level: a price paired with the FIFO queue of resting orders. -/
abbrev Level := Int × List Order

/-- The `Orderbook` state (`orderbook.py`, `__init__`).
`bids` is `self.bids = SortedDict(lambda x: -x)` (head = maximum price),
`asks` is `self.asks = SortedDict()` (head = minimum price),
`short_volume` / `long_volume` are the cached running totals
`self._short_volume` / `self._long_volume`, and `next_id` is the identifier
supply standing in for `uuid4`. -/
structure Orderbook where
  bids : List Level
  asks : List Level
  short_volume : Int
  long_volume : Int
  next_id : Nat
deriving Repr, DecidableEq

/-- The freshly constructed book: both stores empty, cached totals 0
(`get_total_short_volume` / `get_total_long_volume` of an empty store). -/
def Orderbook.init : Orderbook :=
  { bids := [], asks := [], short_volume := 0, long_volume := 0, next_id := 0 }

/-- `get_max_bid_price`: `next(iter(self.bids))`, the first key of the
descending store; `none` models the `StopIteration` on an empty store. -/
def Orderbook.get_max_bid_price (b : Orderbook) : Option Int :=
  b.bids.head?.map Prod.fst

/-- `get_min_ask_price`: `next(iter(self.asks))`, the first key of the
ascending store; `none` models the `StopIteration` on an empty store. -/
def Orderbook.get_min_ask_price (b : Orderbook) : Option Int :=
  b.asks.head?.map Prod.fst

/-- Total volume resting in one store: `sum(sum(ord.volume for ord in ords) for ords in ...)`. -/
def storeVolume (levels : List Level) : Int :=
  (levels.map (fun l => (l.2.map Order.volume).sum)).sum

/-- `get_total_long_volume` (sums over `asks`). -/
def Orderbook.get_total_long_volume (b : Orderbook) : Int :=
  storeVolume b.asks

/-- `get_total_short_volume` (sums over `bids`). -/
def Orderbook.get_total_short_volume (b : Orderbook) : Int :=
  storeVolume b.bids

/-- Number of orders resting in one store: `sum(len(ords) for ords in ...)`. -/
def storeNumOrds (levels : List Level) : Nat :=
  (levels.map (fun l => l.2.length)).sum

/-- `get_long_num_ords` (counts over `asks`). -/
def Orderbook.get_long_num_ords (b : Orderbook) : Nat :=
  storeNumOrds b.asks

/-- `get_short_num_ords` (counts over `bids`). -/
def Orderbook.get_short_num_ords (b : Orderbook) : Nat :=
  storeNumOrds b.bids

/-- `validate` (`orderbook.py` lines 33-43) as a boolean: the three `assert`s,
in source order: cached short total agrees with the recomputed one, cached long
total agrees, and -- only when both stores are non-empty -- the first key of
`asks` is strictly greater than the first key of `bids`. -/
def Orderbook.validate_ok (b : Orderbook) : Bool :=
  (b.short_volume == b.get_total_short_volume) &&
  (b.long_volume == b.get_total_long_volume) &&
  (match b.get_min_ask_price, b.get_max_bid_price with
   | some pa, some pb => pa > pb
   | _, _ => true)

/-- Insert an order into the ascending (`asks`) store at `price`:
`price_map[price].append(new_order)` when the key exists, otherwise
`price_map[price] = deque([new_order])` placed at its sorted position. -/
def insertAsc (price : Int) (o : Order) : List Level → List Level
  | [] => [(price, [o])]
  | (p, q) :: rest =>
    if price < p then (price, [o]) :: (p, q) :: rest
    else if price = p then (p, q ++ [o]) :: rest
    else (p, q) :: insertAsc price o rest

/-- Insert an order into the descending (`bids`) store at `price`: same as
`insertAsc` but the store is ordered by the negated key (`lambda x: -x`). -/
def insertDesc (price : Int) (o : Order) : List Level → List Level
  | [] => [(price, [o])]
  | (p, q) :: rest =>
    if price > p then (price, [o]) :: (p, q) :: rest
    else if price = p then (p, q ++ [o]) :: rest
    else (p, q) :: insertDesc price o rest

/-- `create_new_order` (`orderbook.py` lines 63-81): constructs the record; the
`self._orders.append` branch is dead because `_DEBUG_disable_cache` is `True`. -/
def create_new_order (owner_id : String) (is_buy : Bool) (price volume : Int)
    (order_id : Nat) : Order :=
  { owner_id := owner_id, is_buy := is_buy, price := price, volume := volume,
    comment := "", order_id := order_id }

/-- `create_new_deal` (`orderbook.py` lines 83-100): constructs the record; the
`self._deals.append` branch is dead because `_DEBUG_disable_cache` is `True`. -/
def create_new_deal (volume price : Int) (order_id_client order_id_market : Nat)
    (deal_id : Nat) : Deal :=
  { volume := volume, price := price, order_id_client := order_id_client,
    order_id_market := order_id_market, comment := "", deal_id := deal_id }

/-- The buy-side rejection test of `submit_limit_order`:
`len(self.bids) > 0 and price <= (max_bid_price := self.get_max_bid_price())`. -/
def Orderbook.buy_reject (b : Orderbook) (price : Int) : Bool :=
  match b.get_max_bid_price with
  | some mbp => price ≤ mbp
  | none => false

/-- The sell-side rejection test of `submit_limit_order`:
`len(self.asks) > 0 and price >= (min_buy_price := self.get_min_ask_price())`. -/
def Orderbook.sell_reject (b : Orderbook) (price : Int) : Bool :=
  match b.get_min_ask_price with
  | some mbp => price ≥ mbp
  | none => false

/-- `submit_limit_order` (`orderbook.py` lines 102-138).  Returns the
`(order_id | None, reason | None)` pair together with the successor state.
Control flow follows the source exactly:
* a buy is rejected when `len(self.bids) > 0 and price <= get_max_bid_price()`;
* a sell is rejected when `len(self.asks) > 0 and price >= get_min_ask_price()`;
* otherwise a new order is created, the matching cached total is bumped by
  `volume`, and the order is appended at `price` in
  `price_map = self.asks if is_buy else self.bids` -- note the source really
  does place buy orders in the `asks` store and sell orders in the `bids`
  store. -/
def Orderbook.submit_limit_order (b : Orderbook) (owner_id : String)
    (is_buy : Bool) (price volume : Int) :
    (Option Nat × Option String) × Orderbook :=
  if is_buy && b.buy_reject price then
    ((none, some ("Rejected order ask price \x27" ++ toString price ++
        "\x27, lower than " ++ toString (b.get_max_bid_price.getD 0) ++ ".")), b)
  else if !is_buy && b.sell_reject price then
    ((none, some ("Rejected order bid price \x27" ++ toString price ++
        "\x27, higher than " ++ toString (b.get_min_ask_price.getD 0) ++ ".")), b)
  else
    let new_order := create_new_order owner_id is_buy price volume b.next_id
    if is_buy then
      ((some new_order.order_id, none),
        { b with long_volume := b.long_volume + volume,
                 asks := insertAsc price new_order b.asks,
                 next_id := b.next_id + 1 })
    else
      ((some new_order.order_id, none),
        { b with short_volume := b.short_volume + volume,
                 bids := insertDesc price new_order b.bids,
                 next_id := b.next_id + 1 })

/-- The matching loop of `submit_market_order` (`orderbook.py` lines 151-185),
with explicit fuel for the unbounded `while True:`.  One fuel unit is one pass:
either one inner-loop body (filling against the head of the best level's
queue) or one outer re-entry upon finding that queue empty.  Faithful details:
* `price_level = self.get_max_bid_price()` is the head of `bids` (and raises,
  i.e. returns `none` here, when `bids` is empty);
* the source never deletes a price level, so an emptied queue stays in the
  store and the outer loop re-reads the same level forever;
* `filled_volume = min(order.volume, volume)`; a taker-side order and a deal
  are created (two fresh identifiers); on `filled_volume < order.volume` the
  resting head order's volume is decremented in place and `_short_volume`
  drops by `filled_volume`, otherwise the head is popped and `_short_volume`
  drops by the popped order's volume; the loop returns the accumulated deals
  as soon as the remaining requested `volume` is exactly 0. -/
def market_loop (owner_id : String) :
    Nat → Orderbook → Int → List Deal → Option (List Deal × Orderbook)
  | 0, _, _, _ => none
  | fuel + 1, b, volume, deals =>
    match b.bids with
    | [] => none
    | (price_level, q) :: restLevels =>
      match q with
      | [] => market_loop owner_id fuel b volume deals
      | o :: qrest =>
        let filled_volume := min o.volume volume
        let filling_order :=
          create_new_order owner_id true price_level filled_volume b.next_id
        let new_deal := create_new_deal filled_volume price_level
          filling_order.order_id o.order_id (b.next_id + 1)
        let deals2 := deals ++ [new_deal]
        let volume2 := volume - filled_volume
        let b2 :=
          if filled_volume < o.volume then
            { b with bids := (price_level,
                       { o with volume := o.volume - filled_volume } :: qrest)
                       :: restLevels,
                     short_volume := b.short_volume - filled_volume,
                     next_id := b.next_id + 2 }
          else
            { b with bids := (price_level, qrest) :: restLevels,
                     short_volume := b.short_volume - o.volume,
                     next_id := b.next_id + 2 }
        if volume2 = 0 then some (deals2, b2)
        else market_loop owner_id fuel b2 volume2 deals2

/-- `submit_market_order` (`orderbook.py` lines 140-185).  Returns
`some ((deals | None, reason | None), state)`, where the list of deal
identifiers the Python returns is the `deal_id` projection of the deals;
`none` models non-termination of the matching loop (or `StopIteration`).
Guards in source order:
* `if not is_buy:` fixed-string rejection;
* `if is_buy and (volume > self._short_volume):` rejection quoting both
  quantities (the third guard, `if not is_buy and ...`, is dead code after the
  first and is omitted). -/
def Orderbook.submit_market_order (b : Orderbook) (owner_id : String)
    (is_buy : Bool) (volume : Int) (fuel : Nat) :
    Option ((Option (List Deal) × Option String) × Orderbook) :=
  if !is_buy then
    some ((none, some "Short Market Orders currently not supported!"), b)
  else if volume > b.short_volume then
    some ((none, some ("volume=" ++ toString volume ++ ">self._short_volume=" ++
      toString b.short_volume ++ "!")), b)
  else
    (market_loop owner_id fuel b volume []).map
      (fun r => ((some r.1, none), r.2))

/-! ## Derived definitions used by the verification -/

/-- Sum of the volumes of a list of deals. -/
def dealSum (ds : List Deal) : Int := (ds.map Deal.volume).sum

/-- The queue resting at a given price in a store (`price_map[price]`),
`[]` when the key is absent. -/
def lookupLevel (price : Int) (levels : List Level) : List Order :=
  match levels.find? (fun l => l.1 == price) with
  | some l => l.2
  | none => []

/-- The `asks` store representation invariant: keys strictly ascending, so the
head is the minimum key, as for `SortedDict()`. -/
def ascLevels : List Level → Prop :=
  List.Pairwise (fun a b : Level => a.1 < b.1)

/-- The `bids` store representation invariant: keys strictly descending, so the
head is the maximum key, as for `SortedDict(lambda x: -x)`. -/
def descLevels : List Level → Prop :=
  List.Pairwise (fun a b : Level => b.1 < a.1)

/-! ## Lemmas about the store-insertion helpers -/

theorem storeVolume_insertAsc (p : Int) (o : Order) (l : List Level) :
    storeVolume (insertAsc p o l) = storeVolume l + o.volume := by
  induction l with
  | nil => simp [insertAsc, storeVolume]
  | cons hd t ih =>
    by_cases h1 : p < hd.1
    · simp [insertAsc, h1, storeVolume]; ring
    · by_cases h2 : p = hd.1
      · simp [insertAsc, h1, h2, storeVolume]; ring
      · simp only [insertAsc, if_neg h1, if_neg h2, storeVolume, List.map_cons,
          List.sum_cons] at *
        omega

theorem storeVolume_insertDesc (p : Int) (o : Order) (l : List Level) :
    storeVolume (insertDesc p o l) = storeVolume l + o.volume := by
  induction l with
  | nil => simp [insertDesc, storeVolume]
  | cons hd t ih =>
    by_cases h1 : p > hd.1
    · simp [insertDesc, h1, storeVolume]; ring
    · by_cases h2 : p = hd.1
      · simp [insertDesc, h1, h2, storeVolume]; ring
      · simp only [insertDesc, if_neg h1, if_neg h2, storeVolume, List.map_cons,
          List.sum_cons] at *
        omega

theorem insertAsc_head_key (p : Int) (o : Order) (l : List Level) :
    (insertAsc p o l).head?.map Prod.fst =
      some (match l.head?.map Prod.fst with
            | none => p
            | some k => min p k) := by
  match l with
  | [] => simp [insertAsc]
  | hd :: t =>
    by_cases h1 : p < hd.1
    · simp [insertAsc, h1, min_eq_left (le_of_lt h1)]
    · by_cases h2 : p = hd.1
      · simp [insertAsc, h1, h2]
      · have : hd.1 < p := by omega
        simp [insertAsc, h1, h2, min_eq_right (le_of_lt this)]

theorem insertDesc_head_key (p : Int) (o : Order) (l : List Level) :
    (insertDesc p o l).head?.map Prod.fst =
      some (match l.head?.map Prod.fst with
            | none => p
            | some k => max p k) := by
  match l with
  | [] => simp [insertDesc]
  | hd :: t =>
    by_cases h1 : p > hd.1
    · simp [insertDesc, h1, max_eq_left (le_of_lt h1)]
    · by_cases h2 : p = hd.1
      · simp [insertDesc, h1, h2]
      · have : p < hd.1 := by omega
        simp [insertDesc, h1, h2, max_eq_right (le_of_lt this)]

theorem mem_insertAsc {x : Level} {p : Int} {o : Order} {l : List Level}
    (hx : x ∈ insertAsc p o l) : x.1 = p ∨ x ∈ l := by
  induction l with
  | nil => simp [insertAsc] at hx; simp [hx]
  | cons hd t ih =>
    by_cases h1 : p < hd.1
    · simp [insertAsc, h1] at hx
      rcases hx with h | h | h
      · simp [h]
      · simp [h]
      · exact Or.inr (List.mem_cons_of_mem _ h)
    · by_cases h2 : p = hd.1
      · simp [insertAsc, h1, h2] at hx
        rcases hx with h | h
        · subst h; exact Or.inl h2.symm
        · exact Or.inr (List.mem_cons_of_mem _ h)
      · simp only [insertAsc, if_neg h1, if_neg h2, List.mem_cons] at hx
        rcases hx with h | h
        · simp [h]
        · rcases ih h with h' | h'
          · exact Or.inl h'
          · exact Or.inr (List.mem_cons_of_mem _ h')

theorem mem_insertDesc {x : Level} {p : Int} {o : Order} {l : List Level}
    (hx : x ∈ insertDesc p o l) : x.1 = p ∨ x ∈ l := by
  induction l with
  | nil => simp [insertDesc] at hx; simp [hx]
  | cons hd t ih =>
    by_cases h1 : p > hd.1
    · simp [insertDesc, h1] at hx
      rcases hx with h | h | h
      · simp [h]
      · simp [h]
      · exact Or.inr (List.mem_cons_of_mem _ h)
    · by_cases h2 : p = hd.1
      · simp [insertDesc, h1, h2] at hx
        rcases hx with h | h
        · subst h; exact Or.inl h2.symm
        · exact Or.inr (List.mem_cons_of_mem _ h)
      · simp only [insertDesc, if_neg h1, if_neg h2, List.mem_cons] at hx
        rcases hx with h | h
        · simp [h]
        · rcases ih h with h' | h'
          · exact Or.inl h'
          · exact Or.inr (List.mem_cons_of_mem _ h')

theorem insertAsc_sorted {p : Int} {o : Order} {l : List Level}
    (h : ascLevels l) : ascLevels (insertAsc p o l) := by
  induction l with
  | nil => simp [insertAsc, ascLevels]
  | cons hd t ih =>
    rcases List.pairwise_cons.mp h with ⟨hhd, ht⟩
    by_cases h1 : p < hd.1
    · simp only [insertAsc, if_pos h1]
      refine List.pairwise_cons.mpr ⟨?_, h⟩
      intro y hy
      rcases List.mem_cons.mp hy with h' | h'
      · simpa [h'] using h1
      · exact lt_trans h1 (hhd y h')
    · by_cases h2 : p = hd.1
      · simp only [insertAsc, if_neg h1, if_pos h2]
        exact List.pairwise_cons.mpr ⟨hhd, ht⟩
      · simp only [insertAsc, if_neg h1, if_neg h2]
        refine List.pairwise_cons.mpr ⟨?_, ih ht⟩
        intro y hy
        rcases mem_insertAsc hy with h' | h'
        · rw [h']; omega
        · exact hhd y h'

theorem insertDesc_sorted {p : Int} {o : Order} {l : List Level}
    (h : descLevels l) : descLevels (insertDesc p o l) := by
  induction l with
  | nil => simp [insertDesc, descLevels]
  | cons hd t ih =>
    rcases List.pairwise_cons.mp h with ⟨hhd, ht⟩
    by_cases h1 : p > hd.1
    · simp only [insertDesc, if_pos h1]
      refine List.pairwise_cons.mpr ⟨?_, h⟩
      intro y hy
      rcases List.mem_cons.mp hy with h' | h'
      · simpa [h'] using h1
      · exact lt_trans (hhd y h') h1
    · by_cases h2 : p = hd.1
      · simp only [insertDesc, if_neg h1, if_pos h2]
        exact List.pairwise_cons.mpr ⟨hhd, ht⟩
      · simp only [insertDesc, if_neg h1, if_neg h2]
        refine List.pairwise_cons.mpr ⟨?_, ih ht⟩
        intro y hy
        rcases mem_insertDesc hy with h' | h'
        · rw [h']; omega
        · exact hhd y h'

theorem lookupLevel_of_not_mem {p : Int} {l : List Level}
    (h : ∀ y ∈ l, y.1 ≠ p) : lookupLevel p l = [] := by
  unfold lookupLevel
  have : l.find? (fun x => x.1 == p) = none := by
    apply List.find?_eq_none.mpr
    intro x hx
    simpa using h x hx
  simp [this]

theorem insertAsc_lookup {p : Int} {o : Order} {l : List Level}
    (h : ascLevels l) : lookupLevel p (insertAsc p o l) = lookupLevel p l ++ [o] := by
  induction l with
  | nil => simp [insertAsc, lookupLevel]
  | cons hd t ih =>
    rcases List.pairwise_cons.mp h with ⟨hhd, ht⟩
    by_cases h1 : p < hd.1
    · have habs : ∀ y ∈ hd :: t, y.1 ≠ p := by
        intro y hy
        rcases List.mem_cons.mp hy with h' | h'
        · rw [h']; omega
        · have := hhd y h'; omega
      simp only [insertAsc, if_pos h1]
      rw [lookupLevel_of_not_mem habs]
      simp [lookupLevel]
    · by_cases h2 : p = hd.1
      · simp only [insertAsc, if_neg h1, if_pos h2]
        subst h2
        simp [lookupLevel]
      · have hne : (hd.1 == p) = false := by simp; omega
        simp only [insertAsc, if_neg h1, if_neg h2]
        unfold lookupLevel
        simp only [List.find?_cons, hne]
        exact ih ht

theorem insertDesc_lookup {p : Int} {o : Order} {l : List Level}
    (h : descLevels l) : lookupLevel p (insertDesc p o l) = lookupLevel p l ++ [o] := by
  induction l with
  | nil => simp [insertDesc, lookupLevel]
  | cons hd t ih =>
    rcases List.pairwise_cons.mp h with ⟨hhd, ht⟩
    by_cases h1 : p > hd.1
    · have habs : ∀ y ∈ hd :: t, y.1 ≠ p := by
        intro y hy
        rcases List.mem_cons.mp hy with h' | h'
        · rw [h']; omega
        · have := hhd y h'; omega
      simp only [insertDesc, if_pos h1]
      rw [lookupLevel_of_not_mem habs]
      simp [lookupLevel]
    · by_cases h2 : p = hd.1
      · simp only [insertDesc, if_neg h1, if_pos h2]
        subst h2
        simp [lookupLevel]
      · have hne : (hd.1 == p) = false := by simp; omega
        simp only [insertDesc, if_neg h1, if_neg h2]
        unfold lookupLevel
        simp only [List.find?_cons, hne]
        exact ih ht

/-! ## Lemmas about the market-order matching loop -/

/-- The matching loop never terminates once the best level's queue is empty:
the source never prunes a price level, so `get_max_bid_price` keeps returning
the emptied level and the inner `while` body never runs again. -/
theorem market_loop_stuck (owner : String) (p : Int) (rest : List Level) :
    ∀ (fuel : Nat) (b : Orderbook) (v : Int) (ds : List Deal),
      b.bids = (p, []) :: rest → market_loop owner fuel b v ds = none := by
  intro fuel
  induction fuel with
  | zero => intro b v ds _; rfl
  | succ n ih =>
    intro b v ds hb
    unfold market_loop
    rw [hb]
    exact ih b v ds hb

/-- Auxiliary: `dealSum` over an appended singleton. -/
theorem dealSum_append (ds : List Deal) (d : Deal) :
    dealSum (ds ++ [d]) = dealSum ds + d.volume := by
  simp [dealSum]

/-- What one successful run of the matching loop does to the book: the `asks`
store and the cached long total are untouched, the set (and order) of price
levels of `bids` is unchanged (levels are never pruned), and both the cached
short total and the recomputed resting short volume drop by exactly the total
volume of the deals the run appended. -/
theorem market_loop_spec (owner : String) :
    ∀ (fuel : Nat) (b : Orderbook) (v : Int) (ds ds' : List Deal) (b' : Orderbook),
      market_loop owner fuel b v ds = some (ds', b') →
      b'.asks = b.asks ∧
      b'.long_volume = b.long_volume ∧
      b'.bids.map Prod.fst = b.bids.map Prod.fst ∧
      b'.short_volume = b.short_volume - (dealSum ds' - dealSum ds) ∧
      storeVolume b'.bids = storeVolume b.bids - (dealSum ds' - dealSum ds) ∧
      ∃ new, ds' = ds ++ new := by
  intro fuel
  induction fuel with
  | zero => intro b v ds ds' b' h; simp [market_loop] at h
  | succ n ih =>
    intro b v ds ds' b' h
    unfold market_loop at h
    rcases hb : b.bids with _ | ⟨⟨p, q⟩, restLevels⟩
    · rw [hb] at h; cases h
    · rw [hb] at h
      rcases q with _ | ⟨o, qrest⟩
      · rw [← hb]
        exact ih b v ds ds' b' h
      · simp only [] at h
        split at h
        · rename_i hvz
          split at h
          · rename_i hpart
            rw [Option.some.injEq, Prod.mk.injEq] at h
            obtain ⟨hds, hb'⟩ := h
            subst hds
            subst hb'
            refine ⟨rfl, rfl, ?_, ?_, ?_, ⟨_, rfl⟩⟩
            · simp
            · simp only [dealSum_append, create_new_deal]
              ring
            · simp only [dealSum_append, create_new_deal, storeVolume,
                List.map_cons, List.sum_cons]
              ring
          · rename_i hpart
            have hmin : o.volume ⊓ v = o.volume :=
              le_antisymm (min_le_left _ _) (not_lt.mp hpart)
            rw [Option.some.injEq, Prod.mk.injEq] at h
            obtain ⟨hds, hb'⟩ := h
            subst hds
            subst hb'
            refine ⟨rfl, rfl, ?_, ?_, ?_, ⟨_, rfl⟩⟩
            · simp
            · simp only [dealSum_append, create_new_deal, hmin]
              ring
            · simp only [dealSum_append, create_new_deal, storeVolume,
                List.map_cons, List.sum_cons, hmin]
              ring
        · rename_i hvz
          split at h
          · rename_i hpart
            exfalso
            have h3 : o.volume ⊓ v = v := by
              rcases le_or_lt o.volume v with hc | hc
              · have := min_eq_left hc
                omega
              · exact min_eq_right (le_of_lt hc)
            rw [h3] at hvz
            omega
          · rename_i hpart
            have hmin : o.volume ⊓ v = o.volume :=
              le_antisymm (min_le_left _ _) (not_lt.mp hpart)
            obtain ⟨ha, hl, hmap, hsv, hstore, new2, hnew⟩ := ih _ _ _ _ _ h
            simp only at ha hl hmap hsv hstore
            refine ⟨ha, hl, ?_, ?_, ?_, ?_⟩
            · rw [hmap]
              simp
            · rw [hsv]
              simp only [dealSum_append, create_new_deal, hmin]
              ring
            · rw [hstore]
              simp only [dealSum_append, create_new_deal, storeVolume,
                List.map_cons, List.sum_cons, hmin]
              ring
            · exact ⟨_, by rw [hnew, List.append_assoc]⟩

/-- Price-time behaviour of one successful matching-loop run: all deals it
appends carry the price of the level at the head of `bids` (the store's first
key -- no lower level is ever reached by a terminating run), and their
market-side order identifiers are exactly an initial segment, in queue order,
of that level's resting queue. -/
theorem market_loop_fifo (owner : String) (p : Int) :
    ∀ (fuel : Nat) (b : Orderbook) (v : Int) (ds0 : List Deal)
      (q : List Order) (rest : List Level) (out : List Deal) (b' : Orderbook),
      b.bids = (p, q) :: rest →
      market_loop owner fuel b v ds0 = some (out, b') →
      ∃ new, out = ds0 ++ new ∧ (∀ d ∈ new, d.price = p) ∧
        new.map Deal.order_id_market = (q.map Order.order_id).take new.length := by
  intro fuel
  induction fuel with
  | zero => intro b v ds0 q rest out b' _ h; simp [market_loop] at h
  | succ n ih =>
    intro b v ds0 q rest out b' hb h
    rcases q with _ | ⟨o, qrest⟩
    · rw [market_loop_stuck owner p rest (n+1) b v ds0 hb] at h
      cases h
    · unfold market_loop at h
      rw [hb] at h
      simp only [] at h
      split at h
      · rename_i hvz
        have hout : out = ds0 ++ [create_new_deal (o.volume ⊓ v) p
            (create_new_order owner true p (o.volume ⊓ v) b.next_id).order_id
            o.order_id (b.next_id + 1)] := by
          split at h <;> (rw [Option.some.injEq, Prod.mk.injEq] at h; exact h.1.symm)
        refine ⟨_, hout, ?_, ?_⟩
        · intro d hd
          rw [List.mem_singleton] at hd
          subst hd
          rfl
        · simp [create_new_deal]
      · rename_i hvz
        split at h
        · rename_i hpart
          exfalso
          have h3 : o.volume ⊓ v = v := by
            rcases le_or_lt o.volume v with hc | hc
            · have := min_eq_left hc
              omega
            · exact min_eq_right (le_of_lt hc)
          rw [h3] at hvz
          omega
        · rename_i hpart
          obtain ⟨new2, hout, hpr, hmapids⟩ := ih _ _ _ qrest rest out b' rfl h
          refine ⟨_, by rw [hout, List.append_assoc], ?_, ?_⟩
          · intro d hd
            rcases List.mem_cons.mp hd with h' | h'
            · subst h'; rfl
            · exact hpr d h'
          · simp only [List.singleton_append, List.map_cons, List.length_cons,
              List.take_succ_cons, hmapids, create_new_deal]

/-- Positivity of deal volumes in one matching-loop run, provided every
resting order on the consumed side has positive volume and the remaining
requested volume is positive. -/
theorem market_loop_pos (owner : String) :
    ∀ (fuel : Nat) (b : Orderbook) (v : Int) (ds0 out : List Deal) (b' : Orderbook),
      (∀ l ∈ b.bids, ∀ o ∈ l.2, 0 < o.volume) → 0 < v →
      market_loop owner fuel b v ds0 = some (out, b') →
      ∀ d ∈ out, d ∈ ds0 ∨ 0 < d.volume := by
  intro fuel
  induction fuel with
  | zero => intro b v ds0 out b' _ _ h; simp [market_loop] at h
  | succ n ih =>
    intro b v ds0 out b' hq hv h
    unfold market_loop at h
    rcases hb : b.bids with _ | ⟨⟨p, q⟩, restLevels⟩
    · rw [hb] at h; cases h
    · rw [hb] at h
      rcases q with _ | ⟨o, qrest⟩
      · exact ih b v ds0 out b' hq hv h
      · have hop : 0 < o.volume :=
          hq (p, o :: qrest) (hb ▸ List.mem_cons_self _ _) o (List.mem_cons_self _ _)
        have hfp : 0 < o.volume ⊓ v := lt_min hop hv
        simp only [] at h
        split at h
        · rename_i hvz
          have hout : out = ds0 ++ [create_new_deal (o.volume ⊓ v) p
              (create_new_order owner true p (o.volume ⊓ v) b.next_id).order_id
              o.order_id (b.next_id + 1)] := by
            split at h <;> (rw [Option.some.injEq, Prod.mk.injEq] at h; exact h.1.symm)
          intro d hd
          rw [hout, List.mem_append, List.mem_singleton] at hd
          rcases hd with h' | h'
          · exact Or.inl h'
          · subst h'; exact Or.inr hfp
        · rename_i hvz
          split at h
          · rename_i hpart
            exfalso
            have h3 : o.volume ⊓ v = v := by
              rcases le_or_lt o.volume v with hc | hc
              · have := min_eq_left hc
                omega
              · exact min_eq_right (le_of_lt hc)
            rw [h3] at hvz
            omega
          · rename_i hpart
            have hmin : o.volume ⊓ v = o.volume :=
              le_antisymm (min_le_left _ _) (not_lt.mp hpart)
            have hv2 : 0 < v - o.volume ⊓ v := by
              have hle : o.volume ⊓ v ≤ v := min_le_right _ _
              omega
            have hq2 : ∀ l ∈ ((p, qrest) :: restLevels : List Level),
                ∀ o2 ∈ l.2, 0 < o2.volume := by
              intro l hl o2 ho2
              rcases List.mem_cons.mp hl with h' | h'
              · subst h'
                exact hq (p, o :: qrest) (hb ▸ List.mem_cons_self _ _) o2
                  (List.mem_cons_of_mem _ ho2)
              · exact hq l (hb ▸ List.mem_cons_of_mem _ h') o2 ho2
            have := ih _ _ _ out b' hq2 hv2 h
            intro d hd
            rcases this d hd with h' | h'
            · rw [List.mem_append, List.mem_singleton] at h'
              rcases h' with h'' | h''
              · exact Or.inl h''
              · subst h''; exact Or.inr hfp
            · exact Or.inr h'

/-! ## Equation lemmas for the two submission operations -/

theorem submit_limit_buy_accept (b : Orderbook) (owner : String) (price volume : Int)
    (hrj : b.buy_reject price = false) :
    b.submit_limit_order owner true price volume =
      ((some b.next_id, none),
       { b with long_volume := b.long_volume + volume,
                asks := insertAsc price (create_new_order owner true price volume b.next_id) b.asks,
                next_id := b.next_id + 1 }) := by
  unfold Orderbook.submit_limit_order
  simp [hrj, create_new_order]

theorem submit_limit_sell_accept (b : Orderbook) (owner : String) (price volume : Int)
    (hrj : b.sell_reject price = false) :
    b.submit_limit_order owner false price volume =
      ((some b.next_id, none),
       { b with short_volume := b.short_volume + volume,
                bids := insertDesc price (create_new_order owner false price volume b.next_id) b.bids,
                next_id := b.next_id + 1 }) := by
  unfold Orderbook.submit_limit_order
  simp [hrj, create_new_order]

theorem submit_limit_buy_reject (b : Orderbook) (owner : String) (price volume : Int)
    (hrj : b.buy_reject price = true) :
    b.submit_limit_order owner true price volume =
      ((none, some ("Rejected order ask price \x27" ++ toString price ++
          "\x27, lower than " ++ toString (b.get_max_bid_price.getD 0) ++ ".")), b) := by
  unfold Orderbook.submit_limit_order
  simp [hrj]

theorem submit_limit_sell_reject (b : Orderbook) (owner : String) (price volume : Int)
    (hrj : b.sell_reject price = true) :
    b.submit_limit_order owner false price volume =
      ((none, some ("Rejected order bid price \x27" ++ toString price ++
          "\x27, higher than " ++ toString (b.get_min_ask_price.getD 0) ++ ".")), b) := by
  unfold Orderbook.submit_limit_order
  simp [hrj]

theorem submit_market_sell_reject (b : Orderbook) (owner : String) (volume : Int)
    (fuel : Nat) :
    b.submit_market_order owner false volume fuel =
      some ((none, some "Short Market Orders currently not supported!"), b) := by
  unfold Orderbook.submit_market_order
  simp

theorem submit_market_volume_reject (b : Orderbook) (owner : String) (volume : Int)
    (fuel : Nat) (hv : b.short_volume < volume) :
    b.submit_market_order owner true volume fuel =
      some ((none, some ("volume=" ++ toString volume ++ ">self._short_volume=" ++
        toString b.short_volume ++ "!")), b) := by
  unfold Orderbook.submit_market_order
  simp [hv]

theorem submit_market_run (b : Orderbook) (owner : String) (volume : Int)
    (fuel : Nat) (hv : volume ≤ b.short_volume) :
    b.submit_market_order owner true volume fuel =
      (market_loop owner fuel b volume []).map (fun r => ((some r.1, none), r.2)) := by
  unfold Orderbook.submit_market_order
  simp [not_lt.mpr hv]

/-- A market submission that comes back as a `(None, reason)` pair (a business
rejection) left the book untouched.  Successful runs return `(some deals,
none)`, so the rejected shape only arises from the two guard returns. -/
theorem submit_market_reject_noop (b : Orderbook) (owner : String) (is_buy : Bool)
    (volume : Int) (fuel : Nat) (reason : Option String) (b2 : Orderbook)
    (h : b.submit_market_order owner is_buy volume fuel = some ((none, reason), b2)) :
    b2 = b ∧ reason.isSome = true := by
  cases is_buy with
  | false =>
    rw [submit_market_sell_reject] at h
    rw [Option.some.injEq, Prod.mk.injEq, Prod.mk.injEq] at h
    exact ⟨h.2.symm, by rw [← h.1.2]; rfl⟩
  | true =>
    rcases lt_or_le b.short_volume volume with hv | hv
    · rw [submit_market_volume_reject b owner volume fuel hv] at h
      rw [Option.some.injEq, Prod.mk.injEq, Prod.mk.injEq] at h
      exact ⟨h.2.symm, by rw [← h.1.2]; rfl⟩
    · rw [submit_market_run b owner volume fuel hv] at h
      rcases hm : market_loop owner fuel b volume [] with _ | r
      · rw [hm] at h; cases h
      · rw [hm] at h
        simp at h

/-! ## The book invariant and reachable states -/

/-- The cached running totals agree with the recomputed per-store sums. -/
def cache_ok (b : Orderbook) : Prop :=
  b.short_volume = b.get_total_short_volume ∧
  b.long_volume = b.get_total_long_volume

/-- The no-cross condition checked by `validate`: whenever both stores are
non-empty, the first key of `asks` strictly exceeds the first key of `bids`. -/
def no_cross (b : Orderbook) : Prop :=
  ∀ pa pb, b.get_min_ask_price = some pa → b.get_max_bid_price = some pb → pb < pa

/-- Representation invariant of the whole book: totals cached correctly, the
book never crossed, and both stores sorted the way their `SortedDict`
comparators sort them. -/
def BookInv (b : Orderbook) : Prop :=
  cache_ok b ∧ no_cross b ∧ ascLevels b.asks ∧ descLevels b.bids

/-- Transfer a key-ordering `Pairwise` along equality of key lists. -/
theorem pairwiseKeys {R : Int → Int → Prop} {l l2 : List Level}
    (hk : l.map Prod.fst = l2.map Prod.fst)
    (h : l.Pairwise (fun a b => R a.1 b.1)) : l2.Pairwise (fun a b => R a.1 b.1) := by
  have h1 := List.pairwise_map.mpr h
  rw [hk] at h1
  exact List.pairwise_map.mp h1

theorem BookInv_init : BookInv Orderbook.init := by
  refine ⟨⟨rfl, rfl⟩, ?_, ?_, ?_⟩
  · intro pa pb ha hb
    simp [Orderbook.get_min_ask_price, Orderbook.init] at ha
  · simp [ascLevels, Orderbook.init]
  · simp [descLevels, Orderbook.init]

theorem BookInv_limit (b : Orderbook) (owner : String) (is_buy : Bool)
    (price volume : Int) (hinv : BookInv b) :
    BookInv (b.submit_limit_order owner is_buy price volume).2 := by
  obtain ⟨⟨hcs, hcl⟩, hnc, hasc, hdesc⟩ := hinv
  cases is_buy with
  | true =>
    cases hrj : b.buy_reject price with
    | true => rw [submit_limit_buy_reject b owner price volume hrj]; exact ⟨⟨hcs, hcl⟩, hnc, hasc, hdesc⟩
    | false =>
      rw [submit_limit_buy_accept b owner price volume hrj]
      refine ⟨⟨hcs, ?_⟩, ?_, insertAsc_sorted hasc, hdesc⟩
      · show b.long_volume + volume = storeVolume (insertAsc price _ b.asks)
        rw [storeVolume_insertAsc]
        have hcv : (create_new_order owner true price volume b.next_id).volume = volume := rfl
        have hcl2 : b.long_volume = storeVolume b.asks := hcl
        omega
      · intro pa pb ha hb
        have hb' : b.get_max_bid_price = some pb := hb
        have hmbp : ∀ mbp, b.get_max_bid_price = some mbp → mbp < price := by
          intro mbp hm
          unfold Orderbook.buy_reject at hrj
          rw [hm] at hrj
          simp at hrj
          exact hrj
        have hpb : pb < price := hmbp pb hb'
        have ha' : (insertAsc price (create_new_order owner true price volume b.next_id)
            b.asks).head?.map Prod.fst = some pa := ha
        rw [insertAsc_head_key] at ha'
        rcases hhd : b.asks.head?.map Prod.fst with _ | k
        · rw [hhd] at ha'
          simp at ha'
          omega
        · rw [hhd] at ha'
          simp at ha'
          have hk : pb < k := hnc k pb hhd hb'
          rcases le_or_lt price k with hpk | hpk
          · rw [min_eq_left hpk] at ha'
            omega
          · rw [min_eq_right (le_of_lt hpk)] at ha'
            omega
  | false =>
    cases hrj : b.sell_reject price with
    | true => rw [submit_limit_sell_reject b owner price volume hrj]; exact ⟨⟨hcs, hcl⟩, hnc, hasc, hdesc⟩
    | false =>
      rw [submit_limit_sell_accept b owner price volume hrj]
      refine ⟨⟨?_, hcl⟩, ?_, hasc, insertDesc_sorted hdesc⟩
      · show b.short_volume + volume = storeVolume (insertDesc price _ b.bids)
        rw [storeVolume_insertDesc]
        have hcv : (create_new_order owner false price volume b.next_id).volume = volume := rfl
        have hcs2 : b.short_volume = storeVolume b.bids := hcs
        omega
      · intro pa pb ha hb
        have ha' : b.get_min_ask_price = some pa := ha
        have hmap : ∀ mna, b.get_min_ask_price = some mna → price < mna := by
          intro mna hm
          unfold Orderbook.sell_reject at hrj
          rw [hm] at hrj
          simp at hrj
          exact hrj
        have hpa : price < pa := hmap pa ha'
        have hb' : (insertDesc price (create_new_order owner false price volume b.next_id)
            b.bids).head?.map Prod.fst = some pb := hb
        rw [insertDesc_head_key] at hb'
        rcases hhd : b.bids.head?.map Prod.fst with _ | k
        · rw [hhd] at hb'
          simp at hb'
          omega
        · rw [hhd] at hb'
          simp at hb'
          have hk : k < pa := hnc pa k ha' hhd
          rcases le_or_lt price k with hpk | hpk
          · rw [max_eq_right hpk] at hb'
            omega
          · rw [max_eq_left (le_of_lt hpk)] at hb'
            omega

theorem BookInv_market (b : Orderbook) (owner : String) (is_buy : Bool)
    (volume : Int) (fuel : Nat) (r : Option (List Deal) × Option String)
    (b2 : Orderbook) (hinv : BookInv b)
    (h : b.submit_market_order owner is_buy volume fuel = some (r, b2)) :
    BookInv b2 := by
  obtain ⟨⟨hcs, hcl⟩, hnc, hasc, hdesc⟩ := hinv
  cases is_buy with
  | false =>
    rw [submit_market_sell_reject] at h
    rw [Option.some.injEq, Prod.mk.injEq] at h
    rw [← h.2]
    exact ⟨⟨hcs, hcl⟩, hnc, hasc, hdesc⟩
  | true =>
    rcases lt_or_le b.short_volume volume with hv | hv
    · rw [submit_market_volume_reject b owner volume fuel hv] at h
      rw [Option.some.injEq, Prod.mk.injEq] at h
      rw [← h.2]
      exact ⟨⟨hcs, hcl⟩, hnc, hasc, hdesc⟩
    · rw [submit_market_run b owner volume fuel hv] at h
      rcases hm : market_loop owner fuel b volume [] with _ | ⟨ds', b'⟩
      · rw [hm] at h; cases h
      · rw [hm, Option.map_some'] at h
        rw [Option.some.injEq, Prod.mk.injEq] at h
        obtain ⟨ha, hl, hmap, hsv, hstore, _⟩ := market_loop_spec owner fuel b volume [] ds' b' hm
        rw [← h.2]
        refine ⟨⟨?_, ?_⟩, ?_, ?_, ?_⟩
        · show b'.short_volume = storeVolume b'.bids
          rw [hsv, hstore]
          have hcs2 : b.short_volume = storeVolume b.bids := hcs
          omega
        · show b'.long_volume = storeVolume b'.asks
          rw [hl, ha]
          exact hcl
        · intro pa pb hpa hpb
          apply hnc pa pb
          · show b.asks.head?.map Prod.fst = some pa
            rw [← ha]
            exact hpa
          · show b.bids.head?.map Prod.fst = some pb
            have h1 : b'.bids.head?.map Prod.fst = (b'.bids.map Prod.fst).head? := by
              rw [List.head?_map]
            have h2 : b.bids.head?.map Prod.fst = (b.bids.map Prod.fst).head? := by
              rw [List.head?_map]
            rw [h2, ← hmap, ← h1]
            exact hpb
        · rw [ha]; exact hasc
        · exact pairwiseKeys (R := fun x y => y < x) hmap.symm hdesc

/-- The states reachable from a fresh book through the two submission
operations (market steps only when the matching loop terminates). -/
inductive Reachable : Orderbook → Prop where
  | init : Reachable Orderbook.init
  | limit {b : Orderbook} (owner : String) (is_buy : Bool) (price volume : Int)
      (h : Reachable b) : Reachable (b.submit_limit_order owner is_buy price volume).2
  | market {b : Orderbook} {r : Option (List Deal) × Option String} {b2 : Orderbook}
      (owner : String) (is_buy : Bool) (volume : Int) (fuel : Nat)
      (h : Reachable b)
      (hm : b.submit_market_order owner is_buy volume fuel = some (r, b2)) :
      Reachable b2

theorem Reachable.bookInv {b : Orderbook} (h : Reachable b) : BookInv b := by
  induction h with
  | init => exact BookInv_init
  | limit owner is_buy price volume _ ih => exact BookInv_limit _ owner is_buy price volume ih
  | market owner is_buy volume fuel _ hm ih => exact BookInv_market _ owner is_buy volume fuel _ _ ih hm

theorem validate_ok_of_bookInv (b : Orderbook) (h : BookInv b) :
    b.validate_ok = true := by
  obtain ⟨⟨hcs, hcl⟩, hnc, _, _⟩ := h
  unfold Orderbook.validate_ok
  rcases hma : b.get_min_ask_price with _ | pa
  · simp [hcs, hcl, hma]
  · rcases hmb : b.get_max_bid_price with _ | pb
    · simp [hcs, hcl, hma, hmb]
    · have := hnc pa pb hma hmb
      simp [hcs, hcl, hma, hmb, this]

/-- A rejected limit submission leaves the state untouched and carries a
reason string. -/
theorem submit_limit_reject_noop (b : Orderbook) (owner : String) (is_buy : Bool)
    (price volume : Int)
    (h : (b.submit_limit_order owner is_buy price volume).1.1 = none) :
    (b.submit_limit_order owner is_buy price volume).2 = b ∧
    ((b.submit_limit_order owner is_buy price volume).1.2).isSome = true := by
  cases is_buy with
  | true =>
    cases hrj : b.buy_reject price with
    | false => rw [submit_limit_buy_accept b owner price volume hrj] at h; cases h
    | true => rw [submit_limit_buy_reject b owner price volume hrj]; exact ⟨rfl, rfl⟩
  | false =>
    cases hrj : b.sell_reject price with
    | false => rw [submit_limit_sell_accept b owner price volume hrj] at h; cases h
    | true => rw [submit_limit_sell_reject b owner price volume hrj]; exact ⟨rfl, rfl⟩

/-- An accepted limit submission adds exactly its volume to the sum of the
two cached side totals. -/
theorem submit_limit_accept_delta (b : Orderbook) (owner : String) (is_buy : Bool)
    (price volume : Int) (oid : Nat)
    (h : (b.submit_limit_order owner is_buy price volume).1.1 = some oid) :
    (b.submit_limit_order owner is_buy price volume).2.long_volume +
      (b.submit_limit_order owner is_buy price volume).2.short_volume =
      b.long_volume + b.short_volume + volume := by
  cases is_buy with
  | true =>
    cases hrj : b.buy_reject price with
    | true => rw [submit_limit_buy_reject b owner price volume hrj] at h; cases h
    | false =>
      rw [submit_limit_buy_accept b owner price volume hrj]
      show b.long_volume + volume + b.short_volume = _
      ring
  | false =>
    cases hrj : b.sell_reject price with
    | true => rw [submit_limit_sell_reject b owner price volume hrj] at h; cases h
    | false =>
      rw [submit_limit_sell_accept b owner price volume hrj]
      show b.long_volume + (b.short_volume + volume) = _
      ring

/-- A successful market submission removes exactly the total deal volume from
the sum of the two cached side totals. -/
theorem submit_market_success_delta (b : Orderbook) (owner : String)
    (is_buy : Bool) (volume : Int) (fuel : Nat) (ds : List Deal)
    (reason : Option String) (b2 : Orderbook)
    (h : b.submit_market_order owner is_buy volume fuel = some ((some ds, reason), b2)) :
    b2.long_volume + b2.short_volume = b.long_volume + b.short_volume - dealSum ds := by
  cases is_buy with
  | false =>
    rw [submit_market_sell_reject] at h
    rw [Option.some.injEq, Prod.mk.injEq, Prod.mk.injEq] at h
    cases h.1.1
  | true =>
    rcases lt_or_le b.short_volume volume with hv | hv
    · rw [submit_market_volume_reject b owner volume fuel hv] at h
      rw [Option.some.injEq, Prod.mk.injEq, Prod.mk.injEq] at h
      cases h.1.1
    · rw [submit_market_run b owner volume fuel hv] at h
      rcases hm : market_loop owner fuel b volume [] with _ | ⟨ds', b'⟩
      · rw [hm] at h; cases h
      · rw [hm, Option.map_some'] at h
        simp only [Option.some.injEq, Prod.mk.injEq] at h
        obtain ⟨⟨hds, _⟩, hb2⟩ := h
        obtain ⟨_, hl, _, hsv, _, _⟩ := market_loop_spec owner fuel b volume [] ds' b' hm
        subst hds
        subst hb2
        have hnil : dealSum ([] : List Deal) = 0 := rfl
        omega

/-! ## A sequence runner for the volume-conservation property -/

/-- One submission in a scripted sequence. -/
inductive Cmd where
  | limit (owner : String) (is_buy : Bool) (price volume : Int)
  | market (owner : String) (is_buy : Bool) (volume : Int)

/-- Run a list of submissions from a given book, threading two accumulators:
the summed volume of the *accepted* limit submissions and the summed volume of
all matched deals.  `none` if some market submission diverges. -/
def runCmds (fuel : Nat) : List Cmd → Orderbook → Int → Int → Option (Orderbook × Int × Int)
  | [], b, accepted, matched => some (b, accepted, matched)
  | Cmd.limit owner is_buy price volume :: rest, b, accepted, matched =>
    let r := b.submit_limit_order owner is_buy price volume
    match r.1.1 with
    | some _ => runCmds fuel rest r.2 (accepted + volume) matched
    | none => runCmds fuel rest r.2 accepted matched
  | Cmd.market owner is_buy volume :: rest, b, accepted, matched =>
    match b.submit_market_order owner is_buy volume fuel with
    | none => none
    | some r =>
      match r.1.1 with
      | some ds => runCmds fuel rest r.2 accepted (matched + dealSum ds)
      | none => runCmds fuel rest r.2 accepted matched

theorem runCmds_acc (fuel : Nat) :
    ∀ (cmds : List Cmd) (b : Orderbook) (aL aD : Int) (b' : Orderbook) (aL' aD' : Int),
      runCmds fuel cmds b aL aD = some (b', aL', aD') →
      b'.long_volume + b'.short_volume - (aL' - aD') =
        b.long_volume + b.short_volume - (aL - aD) := by
  intro cmds
  induction cmds with
  | nil =>
    intro b aL aD b' aL' aD' h
    unfold runCmds at h
    rw [Option.some.injEq, Prod.mk.injEq] at h
    obtain ⟨h1, h2⟩ := h
    rw [Prod.mk.injEq] at h2
    rw [← h1, ← h2.1, ← h2.2]
  | cons c rest ih =>
    intro b aL aD b' aL' aD' h
    cases c with
    | limit owner is_buy price volume =>
      unfold runCmds at h
      simp only [] at h
      rcases hs : (b.submit_limit_order owner is_buy price volume).1.1 with _ | oid
      · rw [hs] at h
        have hnoop := (submit_limit_reject_noop b owner is_buy price volume hs).1
        have := ih _ _ _ _ _ _ h
        rw [hnoop] at this
        exact this
      · rw [hs] at h
        have hdelta := submit_limit_accept_delta b owner is_buy price volume oid hs
        have hacc := ih _ _ _ _ _ _ h
        rw [hdelta] at hacc
        omega
    | market owner is_buy volume =>
      unfold runCmds at h
      rcases hs : b.submit_market_order owner is_buy volume fuel with _ | ⟨⟨ods, reason⟩, b2⟩
      · rw [hs] at h; cases h
      · rw [hs] at h
        rcases ods with _ | ds
        · have hnoop := (submit_market_reject_noop b owner is_buy volume fuel reason b2 hs).1
          have := ih _ _ _ _ _ _ h
          rw [hnoop] at this
          exact this
        · have hdelta := submit_market_success_delta b owner is_buy volume fuel ds reason b2 hs
          have hacc := ih b2 aL (aD + dealSum ds) b' aL' aD' h
          omega

/-- Shape of a successful (deal-producing) market submission: the volume guard
passed and the result is exactly the matching loop's output. -/
theorem submit_market_success (b : Orderbook) (owner : String) (volume : Int)
    (fuel : Nat) (ds : List Deal) (reason : Option String) (b2 : Orderbook)
    (h : b.submit_market_order owner true volume fuel = some ((some ds, reason), b2)) :
    volume ≤ b.short_volume ∧ market_loop owner fuel b volume [] = some (ds, b2) ∧
    reason = none := by
  rcases lt_or_le b.short_volume volume with hv | hv
  · rw [submit_market_volume_reject b owner volume fuel hv] at h
    rw [Option.some.injEq, Prod.mk.injEq, Prod.mk.injEq] at h
    cases h.1.1
  · rw [submit_market_run b owner volume fuel hv] at h
    rcases hm : market_loop owner fuel b volume [] with _ | ⟨ds', b'⟩
    · rw [hm] at h; cases h
    · rw [hm, Option.map_some'] at h
      simp only [Option.some.injEq, Prod.mk.injEq] at h
      obtain ⟨⟨hds, hre⟩, hb2⟩ := h
      subst hds
      subst hb2
      exact ⟨hv, rfl, hre.symm⟩

/-! ## Concrete fixtures used in the claim-level theorems -/

/-- One sell-submitted limit order, volume 5 at price 10 (rests in `bids`). -/
def bookOneSell : Orderbook := (Orderbook.init.submit_limit_order "alice" false 10 5).2

/-- The resting order of `bookOneSell`. -/
def orderOneSell : Order :=
  { owner_id := "alice", is_buy := false, price := 10, volume := 5,
    comment := "", order_id := 0 }

/-- Sell-submitted limit orders of volume 5 at prices 10 and 9 (two `bids`
levels, total resting volume 10). -/
def bookTwoLevels : Orderbook :=
  ((Orderbook.init.submit_limit_order "alice" false 10 5).2.submit_limit_order
    "alice" false 9 5).2

/-- The state `submit_market_order` on `bookTwoLevels` reaches after fully
consuming the level at price 10 with 1 unit of requested volume left: the
emptied level is still present, so the loop is stuck on it. -/
def bookStuckC1 : Orderbook :=
  { bids := [(10, []),
             (9, [{ owner_id := "alice", is_buy := false, price := 9, volume := 5,
                    comment := "", order_id := 1 }])],
    asks := [], short_volume := 5, long_volume := 0, next_id := 4 }

/-- The single deal emitted before the loop gets stuck on `bookTwoLevels`. -/
def dealStuckC1 : Deal :=
  { volume := 5, price := 10, order_id_client := 2, order_id_market := 0,
    comment := "", deal_id := 3 }

/-- Sell-submitted limit orders of volume 5 at prices 90 and 100. -/
def bookLowHigh : Orderbook :=
  ((Orderbook.init.submit_limit_order "alice" false 90 5).2.submit_limit_order
    "alice" false 100 5).2

/-- Two sell-submitted limit orders at the same price 10 (volumes 2 then 3),
queued in arrival order at one `bids` level. -/
def bookSamePrice : Orderbook :=
  ((Orderbook.init.submit_limit_order "alice" false 10 2).2.submit_limit_order
    "bob" false 10 3).2

/-- A book with one resting order on each store: a sell-submitted order at 10
(in `bids`) and a buy-submitted order at 20 (in `asks`). -/
def bookBothSides : Orderbook :=
  ((Orderbook.init.submit_limit_order "alice" false 10 5).2.submit_limit_order
    "bob" true 20 5).2

/-! ## The claims -/

/-- C1.  The claim: for every buy market order whose volume does not exceed
the resting volume of the consumed side, `submit_market_order` terminates,
moving to the next-best price level when one is exhausted.  The code violates
this (code bug): it never prunes an emptied price level, so
`get_max_bid_price` keeps returning the exhausted level and the loop spins on
its empty queue forever.  Concretely: with resting sell-side volumes 5 at
price 10 and 5 at price 9 (total 10), a buy market order of volume 6 passes
the liquidity precondition yet never returns, whatever fuel the loop gets. -/
theorem C1_market_order_diverges (fuel : Nat) :
    Orderbook.submit_market_order bookTwoLevels "taker" true 6 fuel = none := by
  have hv : (6 : Int) ≤ bookTwoLevels.short_volume := by decide
  rw [submit_market_run bookTwoLevels "taker" 6 fuel hv]
  cases fuel with
  | zero => rfl
  | succ n =>
    have hstep : market_loop "taker" (n + 1) bookTwoLevels 6 [] =
        market_loop "taker" n bookStuckC1 1 [dealStuckC1] := rfl
    rw [hstep, market_loop_stuck "taker" 10
      [(9, [{ owner_id := "alice", is_buy := false, price := 9, volume := 5,
              comment := "", order_id := 1 }])] n bookStuckC1 1 [dealStuckC1] rfl]
    rfl

/-- C2.  The claim: after every mutating operation no price level maps to an
empty queue (a level emptied by a market fill is pruned).  The code violates
this (code bug): `submit_market_order` never deletes a level, so fully
consuming the only resting order (volume 5 at price 10) with a market order of
volume 5 terminates but leaves `bids` holding the dangling entry `(10, [])`,
and `get_max_bid_price` still answers 10 on a book with no resting orders. -/
theorem C2_empty_level_not_pruned :
    (Orderbook.submit_market_order bookOneSell "taker" true 5 10).map
        (fun r => r.2.bids) = some [(10, [])] ∧
    (Orderbook.submit_market_order bookOneSell "taker" true 5 10).map
        (fun r => r.2.get_max_bid_price) = some (some 10) ∧
    (Orderbook.submit_market_order bookOneSell "taker" true 5 10).map
        (fun r => r.2.get_total_short_volume) = some 0 := by
  refine ⟨?_, ?_, ?_⟩ <;> decide

/-- C3.  After every operation, when both stores are non-empty the first key
of `asks` (the price `validate` compares as the sell side) strictly exceeds
the first key of `bids`, and `validate` passes on every reachable state: its
cross-check asserts exactly `get_min_ask_price() > get_max_bid_price()`,
guarded by both stores being non-empty, next to the two cached-total checks,
which also hold.  Confirmed by induction over all reachable states. -/
theorem C3_no_cross_invariant (b : Orderbook) (h : Reachable b) :
    b.validate_ok = true ∧
    (∀ pa pb, b.get_min_ask_price = some pa → b.get_max_bid_price = some pb →
      pb < pa) := by
  have hinv := h.bookInv
  exact ⟨validate_ok_of_bookInv b hinv, hinv.2.1⟩

/-- Witness for C3 at a reachable book with one resting order on each side
(sell-submitted at 10, buy-submitted at 20). -/
theorem C3_no_cross_invariant_witness : bookBothSides.validate_ok = true :=
  (C3_no_cross_invariant bookBothSides
    (Reachable.limit "bob" true 20 5 (Reachable.limit "alice" false 10 5
      Reachable.init))).1

/-- C4 counterexample.  `bookLowHigh` holds two sell-submitted resting orders,
at prices 90 and 100; the best (lowest) resting sell-side price is 90.  The
claim says a buy limit is rejected exactly when its price is at or below the
best sell price, so a buy at 95 > 90 should be accepted -- but the code
rejects it, because it compares against the first key of `bids` (100, the
highest sell-side price).  Also, the claim says an accepted buy rests on the
buy book: submitting a buy on the empty book leaves `bids` empty and puts the
order into `asks`. -/
theorem C4_counterexample :
    ((bookLowHigh.submit_limit_order "carol" true 95 4).1.1 = none ∧
      (bookLowHigh.submit_limit_order "carol" true 95 4).2 = bookLowHigh ∧
      bookLowHigh.bids.map Prod.fst = [100, 90] ∧ (90 : Int) < 95) ∧
    ((Orderbook.init.submit_limit_order "carol" true 100 5).1.1 = some 0 ∧
      (Orderbook.init.submit_limit_order "carol" true 100 5).2.bids = [] ∧
      (Orderbook.init.submit_limit_order "carol" true 100 5).2.asks ≠ []) := by
  refine ⟨⟨?_, ?_, ?_, ?_⟩, ?_, ?_, ?_⟩ <;> decide

/-- C4 as amended.  `submit_limit_order` rejects a buy exactly when the
`bids` store is non-empty and the price is at or below its first key (the
highest price among the sell-submitted resting orders, not the conventional
best sell); it rejects a sell exactly when the `asks` store is non-empty and
the price is at or above its first key; the rejection reason string quotes
that conflicting first key; and an accepted order is appended to the tail of
the queue at its price level in the store opposite to its naming -- buys into
`asks`, sells into `bids`. -/
theorem C4_limit_rejection_characterization (b : Orderbook) (owner : String)
    (is_buy : Bool) (price volume : Int)
    (hasc : ascLevels b.asks) (hdesc : descLevels b.bids) :
    (((b.submit_limit_order owner is_buy price volume).1.1 = none) ↔
      ((is_buy = true ∧ b.buy_reject price = true) ∨
       (is_buy = false ∧ b.sell_reject price = true))) ∧
    (∀ mbp, is_buy = true → b.get_max_bid_price = some mbp → price ≤ mbp →
      (b.submit_limit_order owner is_buy price volume).1.2 =
        some ("Rejected order ask price \x27" ++ toString price ++
          "\x27, lower than " ++ toString mbp ++ ".")) ∧
    (∀ mna, is_buy = false → b.get_min_ask_price = some mna → mna ≤ price →
      (b.submit_limit_order owner is_buy price volume).1.2 =
        some ("Rejected order bid price \x27" ++ toString price ++
          "\x27, higher than " ++ toString mna ++ ".")) ∧
    (is_buy = true → b.buy_reject price = false →
      lookupLevel price (b.submit_limit_order owner is_buy price volume).2.asks =
        lookupLevel price b.asks ++ [create_new_order owner true price volume b.next_id] ∧
      (b.submit_limit_order owner is_buy price volume).2.bids = b.bids) ∧
    (is_buy = false → b.sell_reject price = false →
      lookupLevel price (b.submit_limit_order owner is_buy price volume).2.bids =
        lookupLevel price b.bids ++ [create_new_order owner false price volume b.next_id] ∧
      (b.submit_limit_order owner is_buy price volume).2.asks = b.asks) := by
  refine ⟨?_, ?_, ?_, ?_, ?_⟩
  · cases is_buy with
    | true =>
      cases hrj : b.buy_reject price with
      | true => rw [submit_limit_buy_reject b owner price volume hrj]; simp [hrj]
      | false => rw [submit_limit_buy_accept b owner price volume hrj]; simp [hrj]
    | false =>
      cases hrj : b.sell_reject price with
      | true => rw [submit_limit_sell_reject b owner price volume hrj]; simp [hrj]
      | false => rw [submit_limit_sell_accept b owner price volume hrj]; simp [hrj]
  · intro mbp hbuy hm hle
    subst hbuy
    have hrj : b.buy_reject price = true := by
      unfold Orderbook.buy_reject
      rw [hm]
      simp [hle]
    rw [submit_limit_buy_reject b owner price volume hrj, hm]
    rfl
  · intro mna hsell hm hle
    subst hsell
    have hrj : b.sell_reject price = true := by
      unfold Orderbook.sell_reject
      rw [hm]
      simp [hle]
    rw [submit_limit_sell_reject b owner price volume hrj, hm]
    rfl
  · intro hbuy hrj
    subst hbuy
    rw [submit_limit_buy_accept b owner price volume hrj]
    exact ⟨insertAsc_lookup hasc, rfl⟩
  · intro hsell hrj
    subst hsell
    rw [submit_limit_sell_accept b owner price volume hrj]
    exact ⟨insertDesc_lookup hdesc, rfl⟩

/-- Witness for the amended C4: on `bookOneSell` (one sell-submitted order at
price 10 resting in `bids`), a buy at 20 is not rejected -- matching the
characterization's right-hand side being false. -/
theorem C4_limit_rejection_characterization_witness :
    ((bookOneSell.submit_limit_order "carol" true 20 3).1.1 = none) ↔
      ((true = true ∧ bookOneSell.buy_reject 20 = true) ∨
       (true = false ∧ bookOneSell.sell_reject 20 = true)) :=
  (C4_limit_rejection_characterization bookOneSell "carol" true 20 3
    (by unfold ascLevels; decide) (by unfold descLevels; decide)).1

/-- C5.  Every rejected submission -- a crossing limit order (result
`(none, reason)`), a market order for the unsupported taker side, or a market
order whose volume exceeds the cached resting total -- returns a
`(none, reason)` pair with `reason` present and leaves the entire book state
(both stores, queues and cached totals: the whole `Orderbook` value)
unchanged.  Confirmed. -/
theorem C5_rejection_is_noop :
    (∀ (b : Orderbook) (owner : String) (is_buy : Bool) (price volume : Int),
      (b.submit_limit_order owner is_buy price volume).1.1 = none →
      (b.submit_limit_order owner is_buy price volume).2 = b ∧
      ((b.submit_limit_order owner is_buy price volume).1.2).isSome = true) ∧
    (∀ (b : Orderbook) (owner : String) (is_buy : Bool) (volume : Int)
      (fuel : Nat) (reason : Option String) (b2 : Orderbook),
      b.submit_market_order owner is_buy volume fuel = some ((none, reason), b2) →
      b2 = b ∧ reason.isSome = true) :=
  ⟨submit_limit_reject_noop, submit_market_reject_noop⟩

/-- Witness for C5: a rejected buy limit on `bookOneSell` and the rejected
(unsupported) sell market order on the fresh book. -/
theorem C5_rejection_is_noop_witness :
    ((bookOneSell.submit_limit_order "carol" true 10 4).2 = bookOneSell ∧
      ((bookOneSell.submit_limit_order "carol" true 10 4).1.2).isSome = true) ∧
    (Orderbook.init = Orderbook.init ∧
      (some "Short Market Orders currently not supported!").isSome = true) :=
  ⟨C5_rejection_is_noop.1 bookOneSell "carol" true 10 4 (by decide),
   C5_rejection_is_noop.2 Orderbook.init "taker" false 5 1
     (some "Short Market Orders currently not supported!") Orderbook.init
     (by decide)⟩

/-- C6 counterexample.  Sequence: accepted sell limit of volume 10 at price
100, then a buy market order of volume 4 (one deal of volume 4).  Afterwards
`longVolume() + shortVolume()` is `6`, the sum of the submitted limit volumes
is `10` and the matched-deal volume is `4`: the claimed value
`10 - 2 * 4 = 2` is wrong -- each match removes volume from one resting side
only, so the correct subtraction is single, not double. -/
theorem C6_counterexample :
    (runCmds 10 [Cmd.limit "alice" false 100 10, Cmd.market "taker" true 4]
        Orderbook.init 0 0).map
      (fun r => (r.1.long_volume + r.1.short_volume, r.2.1, r.2.2)) =
      some (6, 10, 4) ∧
    (6 : Int) ≠ 10 - 2 * 4 := by
  refine ⟨?_, ?_⟩ <;> decide

/-- C6 as amended.  For any scripted sequence of submissions run from the
fresh book (in particular limit submissions followed by market executions),
whenever every market execution terminates, `longVolume() + shortVolume()`
afterwards equals the summed volume of the *accepted* limit submissions minus
the summed volume of all matched deals (once, not twice). -/
theorem C6_volume_conservation (fuel : Nat) (cmds : List Cmd) (b : Orderbook)
    (accepted matched : Int)
    (h : runCmds fuel cmds Orderbook.init 0 0 = some (b, accepted, matched)) :
    b.long_volume + b.short_volume = accepted - matched := by
  have hacc := runCmds_acc fuel cmds Orderbook.init 0 0 b accepted matched h
  have h0 : Orderbook.init.long_volume = 0 := rfl
  have h1 : Orderbook.init.short_volume = 0 := rfl
  omega

/-- The book after the C6 counterexample sequence, used as the witness. -/
def bookAfterC6 : Orderbook :=
  { bids := [(100, [{ owner_id := "alice", is_buy := false, price := 100,
                      volume := 6, comment := "", order_id := 0 }])],
    asks := [], short_volume := 6, long_volume := 0, next_id := 3 }

/-- Witness for the amended C6 at the counterexample's concrete sequence. -/
theorem C6_volume_conservation_witness :
    bookAfterC6.long_volume + bookAfterC6.short_volume = 10 - 4 :=
  C6_volume_conservation 10 [Cmd.limit "alice" false 100 10, Cmd.market "taker" true 4]
    bookAfterC6 10 4 (by decide)

/-- C7 counterexample.  `bookLowHigh` has resting sell-side volume at prices
90 and 100; a buy market order of volume 5 terminates with a single deal at
price 100 -- the *highest* resting price -- while the lower-priced liquidity
at 90 is left untouched (its full volume of 5 still rests).  So a buy market
order does not consume the lowest-priced resting liquidity first. -/
theorem C7_counterexample :
    (Orderbook.submit_market_order bookLowHigh "taker" true 5 10).map
        (fun r => r.1.1.map (fun ds => ds.map Deal.price)) = some (some [100]) ∧
    (Orderbook.submit_market_order bookLowHigh "taker" true 5 10).map
        (fun r => lookupLevel 90 r.2.bids) =
      some [{ owner_id := "alice", is_buy := false, price := 90, volume := 5,
              comment := "", order_id := 0 }] ∧
    (90 : Int) < 100 := by
  refine ⟨?_, ?_, ?_⟩ <;> decide

/-- C7 as amended.  Deals produced by one terminating market execution all
carry the price of the first key of the `bids` store (the maximum price, the
descending store's best level; lower levels are never reached because an
exhausted level is never pruned), and within that level the deals match the
resting orders in exactly queue (submission) order: the deals' market-side
order identifiers are an initial segment of the level's queue of order
identifiers. -/
theorem C7_price_time_priority (b : Orderbook) (owner : String) (volume : Int)
    (fuel : Nat) (p : Int) (q : List Order) (rest : List Level)
    (ds : List Deal) (reason : Option String) (b2 : Orderbook)
    (hb : b.bids = (p, q) :: rest)
    (h : b.submit_market_order owner true volume fuel = some ((some ds, reason), b2)) :
    (∀ d ∈ ds, d.price = p) ∧
    ds.map Deal.order_id_market = (q.map Order.order_id).take ds.length := by
  obtain ⟨hv, hm, _⟩ := submit_market_success b owner volume fuel ds reason b2 h
  obtain ⟨new, hout, hpr, hids⟩ :=
    market_loop_fifo owner p fuel b volume [] q rest ds b2 hb hm
  rw [List.nil_append] at hout
  subst hout
  exact ⟨hpr, hids⟩

/-- The two deals a buy market order of volume 4 produces on `bookSamePrice`,
in submission order of the two resting orders at price 10. -/
def dealsSamePrice : List Deal :=
  [{ volume := 2, price := 10, order_id_client := 2, order_id_market := 0,
     comment := "", deal_id := 3 },
   { volume := 2, price := 10, order_id_client := 4, order_id_market := 1,
     comment := "", deal_id := 5 }]

/-- The queue resting at price 10 in `bookSamePrice`. -/
def queueSamePrice : List Order :=
  [{ owner_id := "alice", is_buy := false, price := 10, volume := 2,
     comment := "", order_id := 0 },
   { owner_id := "bob", is_buy := false, price := 10, volume := 3,
     comment := "", order_id := 1 }]

/-- Witness for the amended C7: on two same-price resting orders the deals'
market-side identifiers come out in submission order. -/
theorem C7_price_time_priority_witness :
    dealsSamePrice.map Deal.order_id_market =
      (queueSamePrice.map Order.order_id).take dealsSamePrice.length :=
  (C7_price_time_priority bookSamePrice "taker" 4 10 10 queueSamePrice []
    dealsSamePrice none
    { bids := [(10, [{ owner_id := "bob", is_buy := false, price := 10,
                       volume := 1, comment := "", order_id := 1 }])],
      asks := [], short_volume := 1, long_volume := 0, next_id := 6 }
    (by decide) (by decide)).2

/-- C8.  Partial-fill correctness, confirmed: on a book holding exactly one
resting order (`bids = [(p, [o])]`, `asks = []`, cached short total equal to
the order's volume), a buy market order of volume strictly less than the
resting volume returns exactly one deal of the requested volume at the
resting price, leaves exactly one resting order at the same price with volume
`o.volume - volume`, and decrements the cached short total by the filled
volume (the `asks` store and long total are untouched, as the record update
shows). -/
theorem C8_partial_fill (b : Orderbook) (owner : String) (fuel : Nat) (p : Int)
    (o : Order) (volume : Int)
    (hb : b.bids = [(p, [o])]) (_ha : b.asks = [])
    (hsv : b.short_volume = o.volume) (hlt : volume < o.volume) :
    b.submit_market_order owner true volume (fuel + 1) =
      some ((some [create_new_deal volume p
          (create_new_order owner true p volume b.next_id).order_id o.order_id
          (b.next_id + 1)], none),
        { b with bids := [(p, [{ o with volume := o.volume - volume }])],
                 short_volume := b.short_volume - volume,
                 next_id := b.next_id + 2 }) := by
  have hv : volume ≤ b.short_volume := by omega
  rw [submit_market_run b owner volume (fuel + 1) hv]
  unfold market_loop
  rw [hb]
  simp only []
  have hmin : o.volume ⊓ volume = volume := min_eq_right (le_of_lt hlt)
  rw [hmin]
  simp [hlt]

/-- Witness for C8: `bookOneSell` (volume 5 resting at price 10), buy market
order of volume 3. -/
theorem C8_partial_fill_witness :
    Orderbook.submit_market_order bookOneSell "taker" true 3 (9 + 1) =
      some ((some [create_new_deal 3 10
          (create_new_order "taker" true 10 3 bookOneSell.next_id).order_id
          orderOneSell.order_id (bookOneSell.next_id + 1)], none),
        { bookOneSell with
            bids := [(10, [{ orderOneSell with volume := orderOneSell.volume - 3 }])],
            short_volume := bookOneSell.short_volume - 3,
            next_id := bookOneSell.next_id + 2 }) :=
  C8_partial_fill bookOneSell "taker" 9 10 orderOneSell 3
    (by decide) (by decide) (by decide) (by decide)

/-- C9 counterexample.  A market order of requested volume 0 against
`bookOneSell` is not rejected (0 does not exceed the resting total) and the
matching loop emits one `Deal` whose volume is `min(5, 0) = 0`, which is not
strictly positive: the code does create a zero-volume deal. -/
theorem C9_counterexample :
    (Orderbook.submit_market_order bookOneSell "taker" true 0 10).map
        (fun r => r.1.1.map (fun ds => ds.map Deal.volume)) = some (some [0]) ∧
    ¬ (0 : Int) > 0 := by
  refine ⟨?_, ?_⟩ <;> decide

/-- C9 as amended.  Every deal produced by an accepted, terminating market
order has strictly positive volume, provided the requested volume is strictly
positive and every order resting in the consumed (`bids`) store has strictly
positive volume.  (Both provisos are necessary: requested volume 0 yields a
zero-volume deal, and resting orders of non-positive volume are reachable
because `submit_limit_order` accepts them, see C10.) -/
theorem C9_deal_volumes_positive (b : Orderbook) (owner : String) (volume : Int)
    (fuel : Nat) (ds : List Deal) (reason : Option String) (b2 : Orderbook)
    (hpos : ∀ l ∈ b.bids, ∀ o ∈ l.2, 0 < o.volume) (hv : 0 < volume)
    (h : b.submit_market_order owner true volume fuel = some ((some ds, reason), b2)) :
    ∀ d ∈ ds, 0 < d.volume := by
  obtain ⟨_, hm, _⟩ := submit_market_success b owner volume fuel ds reason b2 h
  intro d hd
  rcases market_loop_pos owner fuel b volume [] ds b2 hpos hv hm d hd with h' | h'
  · exact absurd h' (List.not_mem_nil d)
  · exact h'

/-- The single deal a buy market order of volume 3 produces on `bookOneSell`. -/
def dealPartialFill : Deal :=
  { volume := 3, price := 10, order_id_client := 1, order_id_market := 0,
    comment := "", deal_id := 2 }

/-- Witness for the amended C9 at the concrete partial fill of volume 3. -/
theorem C9_deal_volumes_positive_witness : 0 < dealPartialFill.volume :=
  C9_deal_volumes_positive bookOneSell "taker" 3 10 [dealPartialFill] none
    { bids := [(10, [{ owner_id := "alice", is_buy := false, price := 10,
                       volume := 2, comment := "", order_id := 0 }])],
      asks := [], short_volume := 2, long_volume := 0, next_id := 3 }
    (by decide) (by decide) (by decide) dealPartialFill (List.mem_singleton.mpr rfl)

/-- C10 counterexample.  The claim says every limit order with volume ≤ 0 is
accepted (fresh identifier, order rested).  But the crossing check still
applies regardless of volume: on `bookOneSell` (first `bids` key 10) a buy
limit at price 5 with volume `-3 ≤ 0` is rejected with a reason and no order
identifier. -/
theorem C10_counterexample :
    (bookOneSell.submit_limit_order "carol" true 5 (-3)).1.1 = none ∧
    ((bookOneSell.submit_limit_order "carol" true 5 (-3)).1.2).isSome = true ∧
    (-3 : Int) ≤ 0 := by
  refine ⟨?_, ?_, ?_⟩ <;> decide

/-- C10 as amended.  Volume is never validated: a limit order with volume ≤ 0
that passes the crossing checks raises no error and is not rejected -- it
returns the fresh order identifier, rests the order at its price level (in
the store its side maps to), and increases that side's cached running total
by the submitted non-positive volume. -/
theorem C10_nonpositive_volume_accepted (b : Orderbook) (owner : String)
    (is_buy : Bool) (price volume : Int) (_hvol : volume ≤ 0)
    (hbuy : is_buy = true → b.buy_reject price = false)
    (hsell : is_buy = false → b.sell_reject price = false) :
    (b.submit_limit_order owner is_buy price volume).1.1 = some b.next_id ∧
    (b.submit_limit_order owner is_buy price volume).1.2 = none ∧
    (is_buy = true →
      (b.submit_limit_order owner is_buy price volume).2.long_volume =
        b.long_volume + volume ∧
      (b.submit_limit_order owner is_buy price volume).2.asks =
        insertAsc price (create_new_order owner true price volume b.next_id) b.asks ∧
      (b.submit_limit_order owner is_buy price volume).2.bids = b.bids) ∧
    (is_buy = false →
      (b.submit_limit_order owner is_buy price volume).2.short_volume =
        b.short_volume + volume ∧
      (b.submit_limit_order owner is_buy price volume).2.bids =
        insertDesc price (create_new_order owner false price volume b.next_id) b.bids ∧
      (b.submit_limit_order owner is_buy price volume).2.asks = b.asks) := by
  cases is_buy with
  | true =>
    have hrj := hbuy rfl
    rw [submit_limit_buy_accept b owner price volume hrj]
    exact ⟨rfl, rfl, fun _ => ⟨rfl, rfl, rfl⟩, fun hc => absurd hc (by simp)⟩
  | false =>
    have hrj := hsell rfl
    rw [submit_limit_sell_accept b owner price volume hrj]
    exact ⟨rfl, rfl, fun hc => absurd hc (by simp), fun _ => ⟨rfl, rfl, rfl⟩⟩

/-- Witness for the amended C10: a buy limit of volume `-3` on the fresh book
is accepted and returns the fresh identifier. -/
theorem C10_nonpositive_volume_accepted_witness :
    (Orderbook.init.submit_limit_order "dave" true 100 (-3)).1.1 =
      some Orderbook.init.next_id :=
  (C10_nonpositive_volume_accepted Orderbook.init "dave" true 100 (-3)
    (by decide) (fun _ => by decide) (fun _ => by decide)).1
